import Mathlib

/-!
Verification of the clustering pipeline of the pharmaceutical-industry
analysis repository (src/src/04_clustering.py and src/modules/*.py),
shallowly embedded over exact rationals.
-/

namespace PharmaCluster

/-! ### Standardizer (src/src/04_clustering.py lines 120-125, StandardScaler)

sklearn's StandardScaler per column: mean over rows, population variance
(ddof=0), scale = sqrt(variance), and a zero variance is replaced by
scale 1 so the transform never raises.  The scale is represented here by
an explicit parameter s constrained by s^2 = variance, avoiding
irrational square roots. -/

/-- Arithmetic mean of a column, as computed by StandardScaler.fit. -/
def qmean (xs : List ℚ) : ℚ := xs.sum / xs.length

/-- Population variance (ddof = 0) of a column, as computed by
StandardScaler.fit. -/
def qvar (xs : List ℚ) : ℚ :=
  ((xs.map (fun x => (x - qmean xs) ^ 2)).sum) / xs.length

/-- The divisor StandardScaler actually uses: sqrt of the variance,
except that a zero variance is replaced by 1 (sklearn
`_handle_zeros_in_scale`).  `s` stands for the square root of the
variance in the nonzero case. -/
def scalerScale (xs : List ℚ) (s : ℚ) : ℚ :=
  if qvar xs = 0 then 1 else s

/-- StandardScaler.fit_transform on one column:
value' = (value - mean) / scale. -/
def fitTransform (xs : List ℚ) (s : ℚ) : List ℚ :=
  xs.map (fun x => (x - qmean xs) / scalerScale xs s)

/-- The standardization step of the pipeline.  The source
(04_clustering.py line 123) calls fit_transform unconditionally and has
no error path, so the step always returns `.ok`. -/
def stdStep (xs : List ℚ) (s : ℚ) : Except String (List ℚ) :=
  .ok (fitTransform xs s)

lemma sum_map_sub_div (xs : List ℚ) (c s : ℚ) :
    (xs.map (fun x => (x - c) / s)).sum = (xs.sum - xs.length * c) / s := by
  induction xs with
  | nil => simp
  | cons a t ih =>
      simp only [List.map_cons, List.sum_cons, ih, List.length_cons]
      push_cast
      ring

lemma sum_map_sq_div (xs : List ℚ) (c s : ℚ) :
    (xs.map (fun x => ((x - c) / s) ^ 2)).sum
      = (xs.map (fun x => (x - c) ^ 2)).sum / s ^ 2 := by
  induction xs with
  | nil => simp
  | cons a t ih =>
      simp only [List.map_cons, List.sum_cons, ih]
      rw [div_pow]
      ring

lemma sum_nonneg_all_zero (xs : List ℚ) (hnn : ∀ x ∈ xs, 0 ≤ x)
    (hsum : xs.sum = 0) : ∀ x ∈ xs, x = 0 := by
  induction xs with
  | nil => intro x hx; simp at hx
  | cons a t ih =>
      have ha : 0 ≤ a := hnn a (List.mem_cons_self a t)
      have ht : 0 ≤ t.sum := List.sum_nonneg (fun x hx => hnn x (List.mem_cons_of_mem a hx))
      have hsc : a + t.sum = 0 := by simpa using hsum
      have ha0 : a = 0 := by linarith
      have ht0 : t.sum = 0 := by linarith
      intro x hx
      rcases List.mem_cons.mp hx with h | h
      · exact h ▸ ha0
      · exact ih (fun y hy => hnn y (List.mem_cons_of_mem a hy)) ht0 x h

lemma qvar_zero_all_eq_mean (xs : List ℚ) (h : qvar xs = 0) :
    ∀ x ∈ xs, x = qmean xs := by
  intro x hx
  have hlen : xs.length ≠ 0 := by
    intro h0
    exact absurd (List.length_eq_zero.mp h0 ▸ hx) (List.not_mem_nil x)
  have hlenQ : (xs.length : ℚ) ≠ 0 := Nat.cast_ne_zero.mpr hlen
  have hsum : (xs.map (fun y => (y - qmean xs) ^ 2)).sum = 0 := by
    have := h
    unfold qvar at this
    rcases (div_eq_zero_iff.mp this) with h' | h'
    · exact h'
    · exact absurd h' hlenQ
  have hz : ((x - qmean xs) ^ 2) = 0 := by
    refine sum_nonneg_all_zero _ (fun y hy => ?_) hsum ((x - qmean xs) ^ 2) ?_
    · rcases List.mem_map.mp hy with ⟨z, _, rfl⟩
      positivity
    · exact List.mem_map.mpr ⟨x, hx, rfl⟩
  have : x - qmean xs = 0 := by
    exact pow_eq_zero_iff (n := 2) (by norm_num) |>.mp hz
  linarith

/-- Claim C4: on a valid column (nonempty, positive variance with
standard deviation s), the standardized column has mean exactly 0 and
population variance exactly 1, the transform being
(value - mean) / stdDev with ddof = 0. -/
theorem standardizer_mean_zero_var_one (xs : List ℚ) (s : ℚ)
    (hne : xs ≠ []) (hs : 0 < s) (hv : s ^ 2 = qvar xs) :
    qmean (fitTransform xs s) = 0 ∧ qvar (fitTransform xs s) = 1 := by
  have hlen : xs.length ≠ 0 := fun h => hne (List.length_eq_zero.mp h)
  have hlenQ : (xs.length : ℚ) ≠ 0 := Nat.cast_ne_zero.mpr hlen
  have hsne : s ≠ 0 := ne_of_gt hs
  have hvne : qvar xs ≠ 0 := by
    rw [← hv]
    positivity
  have hscale : scalerScale xs s = s := by
    unfold scalerScale
    rw [if_neg hvne]
  have hft : fitTransform xs s = xs.map (fun x => (x - qmean xs) / s) := by
    unfold fitTransform
    rw [hscale]
  have hsum : xs.sum = xs.length * qmean xs := by
    unfold qmean
    field_simp
  have hzsum : (fitTransform xs s).sum = 0 := by
    rw [hft, sum_map_sub_div, hsum]
    simp
  have hzlen : (fitTransform xs s).length = xs.length := by
    rw [hft, List.length_map]
  have hmean : qmean (fitTransform xs s) = 0 := by
    unfold qmean
    rw [hzsum, zero_div]
  refine ⟨hmean, ?_⟩
  unfold qvar
  rw [hmean, hzlen, hft]
  have hcomp : (xs.map (fun x => (x - qmean xs) / s)).map (fun y => (y - 0) ^ 2)
      = xs.map (fun x => ((x - qmean xs) / s) ^ 2) := by
    rw [List.map_map]
    apply List.map_congr_left
    intro a _
    simp
  rw [hcomp, sum_map_sq_div, hv]
  have hS : (xs.map (fun x => (x - qmean xs) ^ 2)).sum ≠ 0 := by
    intro h0
    apply hvne
    unfold qvar
    rw [h0, zero_div]
  unfold qvar
  field_simp

/-- Witness for C4 at the concrete column [0, 2] with stdDev 1. -/
theorem standardizer_mean_zero_var_one_witness :
    qmean (fitTransform [(0 : ℚ), 2] 1) = 0 ∧ qvar (fitTransform [(0 : ℚ), 2] 1) = 1 :=
  standardizer_mean_zero_var_one [(0 : ℚ), 2] 1 (by decide)
    (by norm_num) (by unfold qvar qmean; norm_num)

/-- Claim C1, amended: a zero-variance column does not make
standardization fail; sklearn substitutes divisor 1 and the step
returns an all-zero (constant) standardized column. -/
theorem zero_variance_column_silently_constant (xs : List ℚ) (s : ℚ)
    (h : qvar xs = 0) :
    stdStep xs s = .ok (List.replicate xs.length 0) := by
  unfold stdStep
  congr 1
  unfold fitTransform scalerScale
  rw [if_pos h]
  refine List.eq_replicate_iff.mpr ⟨by rw [List.length_map], ?_⟩
  intro b hb
  rcases List.mem_map.mp hb with ⟨x, hx, rfl⟩
  have := qvar_zero_all_eq_mean xs h x hx
  rw [this]
  simp

/-- Witness for the amended C1 at the constant column [5, 5, 5]. -/
theorem zero_variance_column_silently_constant_witness :
    stdStep [(5 : ℚ), 5, 5] 0 = .ok (List.replicate 3 0) := by
  have h : qvar [(5 : ℚ), 5, 5] = 0 := by unfold qvar qmean; norm_num
  simpa using zero_variance_column_silently_constant [(5 : ℚ), 5, 5] 0 h

/-- Counterexample to claim C1 as stated: on the all-identical column
[5, 5, 5] the standardization step does not fail — it returns .ok with
the silently-constant column [0, 0, 0]. -/
theorem standardizer_no_zero_variance_error :
    stdStep [(5 : ℚ), 5, 5] 0 = .ok [0, 0, 0] ∧
      (stdStep [(5 : ℚ), 5, 5] 0).isOk = true := by
  constructor
  · unfold stdStep fitTransform scalerScale qvar qmean
    norm_num
  · rfl

/-! ### Feature Builder (src/src/04_clustering.py lines 97-117)

The script computes 売上高_log = np.log10(売上高) and then drops rows
with any missing (NaN) clustering feature via dropna().  np.log10 maps
a negative argument to NaN, zero to -inf and NaN to NaN; pandas dropna
removes NaN but keeps -inf.  Feature cells are modelled by `FVal`,
missing input cells by `Option ℚ`, and the finite value of log10 on a
positive rational by an arbitrary parameter function f. -/

/-- A numeric cell of the feature matrix: NaN, -infinity, or finite. -/
inductive FVal where
  | nan : FVal
  | ninf : FVal
  | fin : ℚ → FVal
deriving DecidableEq

/-- np.log10 applied to an optional input cell: NaN on a missing or
negative input, -inf at zero, finite (f x) on a positive x. -/
def log10m (f : ℚ → ℚ) : Option ℚ → FVal
  | none => .nan
  | some x => if x < 0 then .nan else if x = 0 then .ninf else .fin (f x)

/-- pandas isna on a cell: true exactly on NaN (-inf is not NA). -/
def isNA : FVal → Bool
  | .nan => true
  | _ => false

/-- Optional raw cell as a matrix cell: missing becomes NaN. -/
def toF : Option ℚ → FVal
  | none => .nan
  | some x => .fin x

/-- One company row restricted to the clustering columns of the script
(企業名, 売上高 and the five ratio features). -/
structure CRow where
  name : String
  revenue : Option ℚ
  opMargin : Option ℚ
  netMargin : Option ℚ
  roa : Option ℚ
  roe : Option ℚ
  equityRatio : Option ℚ
deriving DecidableEq

/-- The clustering feature vector of a row, in declared column order
[売上高_log, 営業利益率, 当期純利益率, ROA, ROE, 自己資本比率]. -/
def featuresOf (f : ℚ → ℚ) (r : CRow) : List FVal :=
  [log10m f r.revenue, toF r.opMargin, toF r.netMargin,
   toF r.roa, toF r.roe, toF r.equityRatio]

/-- df_cluster = df[["企業名"] + clustering_cols].dropna(): the rows
retained for clustering are those with no NaN feature cell. -/
def retainedRows (f : ℚ → ℚ) (rows : List CRow) : List CRow :=
  rows.filter (fun r => (featuresOf f r).all (fun v => !(isNA v)))

lemma isNA_toF (o : Option ℚ) : isNA (toF o) = false ↔ o.isSome := by
  cases o <;> simp [toF, isNA]

lemma isNA_log10m (f : ℚ → ℚ) (o : Option ℚ) :
    isNA (log10m f o) = false ↔ ∃ x, o = some x ∧ 0 ≤ x := by
  cases o with
  | none => simp [log10m, isNA]
  | some x =>
      by_cases hneg : x < 0
      · simp [log10m, isNA, hneg]
      · by_cases hz : x = 0
        · simp [log10m, isNA, hneg, hz, isNA]
        · have hx : 0 ≤ x := not_lt.mp hneg
          simp [log10m, isNA, hneg, hz, hx]

/-- Claim C2, amended: a row is retained by the Feature Builder iff all
five ratio features are present and the revenue is present and
non-negative; a missing or negative revenue is excluded exactly like a
missing value, but a row with revenue exactly 0 is retained, and its
log-feature is the non-finite value -inf, which reaches the feature
matrix. -/
theorem feature_builder_retention (f : ℚ → ℚ) (rows : List CRow) (r : CRow) :
    (r ∈ retainedRows f rows ↔
      r ∈ rows ∧ r.opMargin.isSome ∧ r.netMargin.isSome ∧ r.roa.isSome ∧
        r.roe.isSome ∧ r.equityRatio.isSome ∧ ∃ x, r.revenue = some x ∧ 0 ≤ x) ∧
    (r.revenue = some 0 → log10m f r.revenue = FVal.ninf) := by
  constructor
  · rw [retainedRows, List.mem_filter]
    constructor
    · rintro ⟨hmem, hall⟩
      refine ⟨hmem, ?_⟩
      simp only [featuresOf, List.all_cons, List.all_nil, Bool.and_true,
        Bool.and_eq_true, Bool.not_eq_true'] at hall
      obtain ⟨h1, h2, h3, h4, h5, h6⟩ := hall
      exact ⟨(isNA_toF _).mp h2, (isNA_toF _).mp h3, (isNA_toF _).mp h4,
        (isNA_toF _).mp h5, (isNA_toF _).mp h6, (isNA_log10m f _).mp h1⟩
    · rintro ⟨hmem, h2, h3, h4, h5, h6, hrev⟩
      refine ⟨hmem, ?_⟩
      simp only [featuresOf, List.all_cons, List.all_nil, Bool.and_true,
        Bool.and_eq_true, Bool.not_eq_true']
      exact ⟨(isNA_log10m f _).mpr hrev, (isNA_toF _).mpr h2, (isNA_toF _).mpr h3,
        (isNA_toF _).mpr h4, (isNA_toF _).mpr h5, (isNA_toF _).mpr h6⟩
  · intro h
    rw [h]
    simp [log10m]

/-- A concrete row with revenue exactly 0 and all other features present. -/
def zeroRevenueRow : CRow :=
  ⟨"社X", some 0, some 1, some 1, some 1, some 1, some 1⟩

/-- Witness for the amended C2 at the zero-revenue row. -/
theorem feature_builder_retention_witness :
    (zeroRevenueRow ∈ retainedRows (fun _ => 0) [zeroRevenueRow] ↔
      zeroRevenueRow ∈ [zeroRevenueRow] ∧ zeroRevenueRow.opMargin.isSome ∧
        zeroRevenueRow.netMargin.isSome ∧ zeroRevenueRow.roa.isSome ∧
        zeroRevenueRow.roe.isSome ∧ zeroRevenueRow.equityRatio.isSome ∧
        ∃ x, zeroRevenueRow.revenue = some x ∧ 0 ≤ x) ∧
    (zeroRevenueRow.revenue = some 0 →
      log10m (fun _ => 0) zeroRevenueRow.revenue = FVal.ninf) :=
  feature_builder_retention (fun _ => 0) [zeroRevenueRow] zeroRevenueRow

/-- Counterexample to claim C2 as stated: the zero-revenue row (a
non-positive value in the log-transformed field) is NOT excluded — it
is retained by dropna, and the non-finite value -inf appears in its
feature vector, reaching the matrix handed to the Standardizer. -/
theorem nonpositive_revenue_row_not_excluded :
    retainedRows (fun _ => 0) [zeroRevenueRow] = [zeroRevenueRow] ∧
      FVal.ninf ∈ featuresOf (fun _ => 0) zeroRevenueRow := by
  constructor
  · rfl
  · simp [featuresOf, zeroRevenueRow, log10m]

/-! ### Cluster Count Selector (src/src/04_clustering.py lines 132-145)

The script computes silhouette scores for k in range(2, 5), stores them
in a dict in insertion order [2, 3, 4], and picks
optimal_k = max(silhouette_scores, key=silhouette_scores.get).
Python's max returns the first key attaining the maximal value in
iteration order, i.e. the smallest such k here.  The score table is
modelled as a function f from candidate to score. -/

/-- The fixed candidate range range(2, 5) of the selector. -/
def candidateKs : List ℕ := [2, 3, 4]

/-- Python max(_, key=f) over a list given an initial best: a later
element replaces the current best only when its key is strictly
greater, so on ties the earliest element wins. -/
def pythonMaxAux (f : ℕ → ℚ) : List ℕ → ℕ → ℕ
  | [], best => best
  | k :: t, best => pythonMaxAux f t (if f best < f k then k else best)

/-- optimal_k = max(silhouette_scores, key=silhouette_scores.get). -/
def optimal_k (f : ℕ → ℚ) : ℕ :=
  match candidateKs with
  | [] => 0
  | k :: t => pythonMaxAux f t k

/-- Claim C3: the selected K lies in the candidate range {2,3,4}, its
score is greater than or equal to the score of every candidate, and
among candidates attaining the maximal score the smallest one is
returned. -/
theorem cluster_count_selector_correct (f : ℕ → ℚ) :
    optimal_k f ∈ candidateKs ∧
      (∀ k ∈ candidateKs, f k ≤ f (optimal_k f)) ∧
      (∀ k ∈ candidateKs, f (optimal_k f) = f k → optimal_k f ≤ k) := by
  by_cases h1 : f 2 < f 3
  · by_cases h2 : f 3 < f 4
    · have hopt : optimal_k f = 4 := by
        simp [optimal_k, candidateKs, pythonMaxAux, h1, h2]
      rw [hopt]
      refine ⟨by simp [candidateKs], ?_, ?_⟩
      · intro k hk
        simp only [candidateKs, List.mem_cons, List.not_mem_nil, or_false] at hk
        rcases hk with rfl | rfl | rfl <;> linarith
      · intro k hk heq
        simp only [candidateKs, List.mem_cons, List.not_mem_nil, or_false] at hk
        rcases hk with rfl | rfl | rfl <;> linarith
    · have hopt : optimal_k f = 3 := by
        simp [optimal_k, candidateKs, pythonMaxAux, h1, h2]
      rw [hopt]
      refine ⟨by simp [candidateKs], ?_, ?_⟩
      · intro k hk
        simp only [candidateKs, List.mem_cons, List.not_mem_nil, or_false] at hk
        rcases hk with rfl | rfl | rfl <;> linarith
      · intro k hk heq
        simp only [candidateKs, List.mem_cons, List.not_mem_nil, or_false] at hk
        rcases hk with rfl | rfl | rfl <;> linarith
  · by_cases h2 : f 2 < f 4
    · have hopt : optimal_k f = 4 := by
        simp [optimal_k, candidateKs, pythonMaxAux, h1, h2]
      rw [hopt]
      refine ⟨by simp [candidateKs], ?_, ?_⟩
      · intro k hk
        simp only [candidateKs, List.mem_cons, List.not_mem_nil, or_false] at hk
        rcases hk with rfl | rfl | rfl <;> linarith
      · intro k hk heq
        simp only [candidateKs, List.mem_cons, List.not_mem_nil, or_false] at hk
        rcases hk with rfl | rfl | rfl <;> linarith
    · have hopt : optimal_k f = 2 := by
        simp [optimal_k, candidateKs, pythonMaxAux, h1, h2]
      rw [hopt]
      refine ⟨by simp [candidateKs], ?_, ?_⟩
      · intro k hk
        simp only [candidateKs, List.mem_cons, List.not_mem_nil, or_false] at hk
        rcases hk with rfl | rfl | rfl <;> linarith
      · intro k hk heq
        simp only [candidateKs, List.mem_cons, List.not_mem_nil, or_false] at hk
        rcases hk with rfl | rfl | rfl <;> omega

/-- Witness for C3 at the concrete score table k ↦ k. -/
theorem cluster_count_selector_correct_witness :
    optimal_k (fun k => (k : ℚ)) ∈ candidateKs ∧
      (∀ k ∈ candidateKs, (k : ℚ) ≤ (optimal_k (fun k => (k : ℚ)) : ℚ)) ∧
      (∀ k ∈ candidateKs,
        (optimal_k (fun k => (k : ℚ)) : ℚ) = (k : ℚ) →
          optimal_k (fun k => (k : ℚ)) ≤ k) :=
  cluster_count_selector_correct (fun k => (k : ℚ))

/-! ### Label renumbering (src/src/04_clustering.py lines 152-157)

df_cluster["クラスター"] = kmeans.fit_predict(X_scaled) followed by
df_cluster["クラスター"] = df_cluster["クラスター"] + 1. -/

/-- The 0-based to 1-based renumbering applied to the fitted labels. -/
def renumber (labels : List ℕ) : List ℕ := labels.map (· + 1)

lemma renumber_getD (labels : List ℕ) (i : ℕ) (h : i < labels.length) :
    (renumber labels).getD i 0 = labels.getD i 0 + 1 := by
  rw [List.getD_eq_getElem?_getD, List.getD_eq_getElem?_getD]
  rw [renumber, List.getElem?_map]
  cases hx : labels[i]? with
  | none =>
      rw [List.getElem?_eq_none_iff] at hx
      omega
  | some v => simp

/-- Claim C5: the renumbering is a pure relabeling: two retained rows
carry the same final label iff the fitter assigned them the same raw
label, and when every raw label is below K every final label lies in
{1 .. K}. -/
theorem renumbering_pure_relabeling (labels : List ℕ) (K : ℕ)
    (h : ∀ l ∈ labels, l < K) :
    (∀ i j, i < labels.length → j < labels.length →
      ((renumber labels).getD i 0 = (renumber labels).getD j 0 ↔
        labels.getD i 0 = labels.getD j 0)) ∧
    ∀ l ∈ renumber labels, 1 ≤ l ∧ l ≤ K := by
  constructor
  · intro i j hi hj
    rw [renumber_getD labels i hi, renumber_getD labels j hj]
    omega
  · intro l hl
    rcases List.mem_map.mp hl with ⟨x, hx, rfl⟩
    have := h x hx
    omega

/-- Witness for C5 at the concrete raw labels [1, 0, 1] with K = 2. -/
theorem renumbering_pure_relabeling_witness :
    (∀ i j, i < ([1, 0, 1] : List ℕ).length → j < ([1, 0, 1] : List ℕ).length →
      ((renumber [1, 0, 1]).getD i 0 = (renumber [1, 0, 1]).getD j 0 ↔
        ([1, 0, 1] : List ℕ).getD i 0 = ([1, 0, 1] : List ℕ).getD j 0)) ∧
    ∀ l ∈ renumber [1, 0, 1], 1 ≤ l ∧ l ≤ 2 :=
  renumbering_pure_relabeling [1, 0, 1] 2 (by decide)

/-! ### Column validation (src/modules/preprocess.py lines 59-83)

validate_columns builds missing_cols = the required columns absent from
df.columns and raises ValueError iff that list is nonempty; it never
touches the frame itself. -/

/-- A data frame: named columns over rational cells. -/
structure Frame where
  columns : List String
  rows : List (List ℚ)
deriving DecidableEq

/-- preprocess.validate_columns: error iff some required column is
missing from the schema; on success the frame passes through
unchanged (the Python function mutates nothing and returns None). -/
def validate_columns (df : Frame) (required : List String) :
    Except String Frame :=
  let missing := required.filter (fun c => !(df.columns.contains c))
  if missing.isEmpty then .ok df else .error (String.intercalate ", " missing)

/-- Claim C9: validation succeeds, returning the dataset unchanged, iff
every declared required column is present; it raises a fatal error iff
at least one required column is absent. -/
theorem validate_columns_iff (df : Frame) (required : List String) :
    (validate_columns df required = .ok df ↔
      ∀ c ∈ required, c ∈ df.columns) ∧
    ((∃ c ∈ required, c ∉ df.columns) ↔
      ∃ msg, validate_columns df required = .error msg) := by
  have hmiss : (required.filter (fun c => !(df.columns.contains c))).isEmpty = true ↔
      ∀ c ∈ required, c ∈ df.columns := by
    rw [List.isEmpty_iff, List.filter_eq_nil_iff]
    constructor
    · intro h c hc
      have := h c hc
      simpa using this
    · intro h c hc
      simpa using h c hc
  constructor
  · constructor
    · intro h
      rw [← hmiss]
      by_contra hne
      rw [validate_columns] at h
      simp only [hne, Bool.false_eq_true, if_false] at h
      exact Except.noConfusion h
    · intro h
      rw [validate_columns]
      simp only [hmiss.mpr h, if_true]
  · constructor
    · rintro ⟨c, hc, habs⟩
      refine ⟨String.intercalate ", "
        (required.filter (fun c => !(df.columns.contains c))), ?_⟩
      rw [validate_columns]
      have hne : (required.filter (fun c => !(df.columns.contains c))).isEmpty ≠ true := by
        intro h
        exact habs (hmiss.mp h c hc)
      rw [if_neg hne]
    · rintro ⟨msg, h⟩
      by_contra hall
      push_neg at hall
      have : ∀ c ∈ required, c ∈ df.columns := hall
      rw [validate_columns] at h
      simp only [hmiss.mpr this, if_true] at h
      exact Except.noConfusion h

/-! ### Percentage normalization (src/modules/metrics.py lines 65-98)

normalize_percentage_columns loops over the listed columns; a column
absent from the frame is skipped; otherwise max_val = df[col].max() and
the column is multiplied by 100 exactly when max_val <= 1.0 and
max_val > 0.  The frame is modelled as an ordered association list of
named columns; pandas max on a nonempty numeric column is its maximum
and on an empty column is NaN, on which both comparisons are false. -/

/-- pandas Series.max on a column: none (NaN) when empty, otherwise the
maximum value. -/
def colMax : List ℚ → Option ℚ
  | [] => none
  | x :: t => some (t.foldl max x)

/-- The scaling condition of the source: max_val <= 1.0 and
max_val > 0 (false when the max is NaN). -/
def shouldScale (xs : List ℚ) : Bool :=
  match colMax xs with
  | none => false
  | some m => decide (m ≤ 1) && decide (0 < m)

/-- One iteration of the loop body for a listed column name c: the
column named c is multiplied by 100 when its condition holds; every
other column, and a frame not containing c, is left as is. -/
def scaleStep (df : List (String × List ℚ)) (c : String) :
    List (String × List ℚ) :=
  df.map (fun p =>
    if p.1 = c ∧ shouldScale p.2 then (p.1, p.2.map (fun x => x * 100)) else p)

/-- metrics.normalize_percentage_columns: fold the loop body over the
listed column names. -/
def normalize_percentage_columns (df : List (String × List ℚ))
    (cols : List String) : List (String × List ℚ) :=
  cols.foldl scaleStep df

lemma shouldScale_iff (xs : List ℚ) :
    shouldScale xs = true ↔ ∃ m, colMax xs = some m ∧ 0 < m ∧ m ≤ 1 := by
  unfold shouldScale
  cases h : colMax xs with
  | none => simp
  | some m =>
      simp only [Bool.and_eq_true, decide_eq_true_eq, Option.some.injEq]
      constructor
      · rintro ⟨h1, h2⟩
        exact ⟨m, rfl, h2, h1⟩
      · rintro ⟨m', hm', h1, h2⟩
        exact ⟨hm' ▸ h2, hm' ▸ h1⟩

lemma lookup_scaleStep (df : List (String × List ℚ)) (c name : String) :
    (scaleStep df c).lookup name =
      (df.lookup name).map
        (fun xs => if name = c ∧ shouldScale xs then xs.map (fun x => x * 100) else xs) := by
  induction df with
  | nil => rfl
  | cons p t ih =>
      rcases p with ⟨n, xs⟩
      have hstep : scaleStep ((n, xs) :: t) c =
          (n, if n = c ∧ shouldScale xs then xs.map (fun x => x * 100) else xs)
            :: scaleStep t c := by
        unfold scaleStep
        rw [List.map_cons]
        by_cases h : n = c ∧ shouldScale xs
        · rw [if_pos h, if_pos h]
        · rw [if_neg h, if_neg h]
      rw [hstep, List.lookup_cons, List.lookup_cons]
      by_cases hname : name = n
      · subst hname
        simp only [beq_self_eq_true]
        rfl
      · have hbeq : (name == n) = false := beq_eq_false_iff_ne.mpr hname
        simp only [hbeq]
        exact ih

lemma fst_scaleStep (df : List (String × List ℚ)) (c : String) :
    (scaleStep df c).map Prod.fst = df.map Prod.fst := by
  unfold scaleStep
  rw [List.map_map]
  apply List.map_congr_left
  intro p _
  by_cases h : p.1 = c ∧ shouldScale p.2
  · simp [h]
  · simp [h]

lemma fst_normalize (df : List (String × List ℚ)) (cols : List String) :
    (normalize_percentage_columns df cols).map Prod.fst = df.map Prod.fst := by
  induction cols generalizing df with
  | nil => rfl
  | cons c cs ih =>
      unfold normalize_percentage_columns at *
      rw [List.foldl_cons, ih (scaleStep df c), fst_scaleStep]

lemma lookup_normalize (df : List (String × List ℚ)) (cols : List String)
    (hcols : cols.Nodup) (name : String) :
    (normalize_percentage_columns df cols).lookup name =
      (df.lookup name).map
        (fun xs => if name ∈ cols ∧ shouldScale xs
          then xs.map (fun x => x * 100) else xs) := by
  induction cols generalizing df with
  | nil =>
      simp only [normalize_percentage_columns, List.foldl_nil, List.not_mem_nil,
        false_and, if_false]
      cases df.lookup name <;> rfl
  | cons c cs ih =>
      have hcnd : cs.Nodup := (List.nodup_cons.mp hcols).2
      have hcnot : c ∉ cs := (List.nodup_cons.mp hcols).1
      unfold normalize_percentage_columns at *
      rw [List.foldl_cons, ih (scaleStep df c) hcnd, lookup_scaleStep]
      cases hdf : df.lookup name with
      | none => rfl
      | some xs =>
          rw [Option.map_some', Option.map_some', Option.map_some']
          congr 1
          beta_reduce
          by_cases h1 : name = c
          · subst h1
            have houter : ∀ y : List ℚ,
                (if name ∈ cs ∧ shouldScale y then y.map (fun x => x * 100) else y) = y :=
              fun y => if_neg (fun hc => hcnot hc.1)
            rw [houter]
            by_cases h2 : shouldScale xs
            · rw [if_pos ⟨rfl, h2⟩, if_pos ⟨List.mem_cons_self name cs, h2⟩]
            · rw [if_neg (fun hc => h2 hc.2), if_neg (fun hc => h2 hc.2)]
          · have hinner :
                (if name = c ∧ shouldScale xs then xs.map (fun x => x * 100) else xs) = xs :=
              if_neg (fun hc => h1 hc.1)
            rw [hinner]
            by_cases h3 : name ∈ cs ∧ shouldScale xs
            · rw [if_pos h3, if_pos ⟨List.mem_cons_of_mem c h3.1, h3.2⟩]
            · rw [if_neg h3,
                if_neg (fun hc => h3 ⟨(List.mem_cons.mp hc.1).resolve_left h1, hc.2⟩)]

/-- Claim C10: normalize_percentage_columns multiplies a listed column
by 100 iff its maximum m satisfies 0 < m ≤ 1; a listed column whose
maximum violates that, a listed name absent from the frame, and every
unlisted column are returned unchanged, and the column names and their
order are preserved.  (Each column is looked up by its unique name.) -/
theorem normalize_percentage_columns_correct
    (df : List (String × List ℚ)) (cols : List String) (hcols : cols.Nodup) :
    ((normalize_percentage_columns df cols).map Prod.fst = df.map Prod.fst) ∧
    (∀ name, (normalize_percentage_columns df cols).lookup name =
      (df.lookup name).map
        (fun xs => if name ∈ cols ∧ shouldScale xs
          then xs.map (fun x => x * 100) else xs)) ∧
    (∀ xs, shouldScale xs = true ↔ ∃ m, colMax xs = some m ∧ 0 < m ∧ m ≤ 1) :=
  ⟨fst_normalize df cols, lookup_normalize df cols hcols, shouldScale_iff⟩

/-- The concrete frame used by the witness for C10: a 0-1-scaled ROA
column, an unlisted revenue column, and no ROE column. -/
def demoFrame : List (String × List ℚ) :=
  [("ROA", [1/2, 1/4]), ("売上高", [50, 200])]

/-- Witness for C10 on demoFrame with cols = ["ROA", "ROE"]. -/
theorem normalize_percentage_columns_correct_witness :
    ((normalize_percentage_columns demoFrame ["ROA", "ROE"]).map Prod.fst =
      demoFrame.map Prod.fst) ∧
    ((normalize_percentage_columns demoFrame ["ROA", "ROE"]).lookup "ROA" =
      (demoFrame.lookup "ROA").map
        (fun xs => if "ROA" ∈ ["ROA", "ROE"] ∧ shouldScale xs
          then xs.map (fun x => x * 100) else xs)) ∧
    (shouldScale [1/2, 1/4] = true ↔
      ∃ m, colMax [1/2, 1/4] = some m ∧ 0 < m ∧ m ≤ 1) := by
  obtain ⟨h1, h2, h3⟩ :=
    normalize_percentage_columns_correct demoFrame ["ROA", "ROE"] (by decide)
  exact ⟨h1, h2 "ROA", h3 [1/2, 1/4]⟩

/-! ### Profile Aggregator (src/src/04_clustering.py lines 244-259)

cluster_profile = df.groupby("クラスター")[metric_cols].mean():
pandas groupby drops rows whose key is NaN, sorts the group keys
ascending (sort=True default), and takes the arithmetic mean of each
declared metric column over each group's members, on the original
unstandardized values.  A row is modelled by its optional cluster label
and its list of m metric values in declared order (every labeled row
carries all metrics, which upstream filtering guarantees). -/

/-- A row of the merged frame: optional cluster label plus the declared
profile metrics in order. -/
structure LRow where
  label : Option ℕ
  metrics : List ℚ
deriving DecidableEq

/-- The members of cluster k: rows whose label is exactly some k. -/
def memberRows (rows : List LRow) (k : ℕ) : List LRow :=
  rows.filter (fun r => r.label == some k)

/-- The distinct cluster labels present, in ascending order (pandas
groupby keys with sort=True). -/
def presentLabels (rows : List LRow) : List ℕ :=
  ((rows.filterMap LRow.label).dedup).insertionSort (· ≤ ·)

/-- The mean of each declared metric over cluster k's members. -/
def profileMeans (rows : List LRow) (m k : ℕ) : List ℚ :=
  (List.range m).map
    (fun j => qmean ((memberRows rows k).map (fun r => r.metrics.getD j 0)))

/-- df.groupby("クラスター")[metric_cols].mean(): one output row per
present label, ascending, with the metric means in declared order. -/
def cluster_profile (rows : List LRow) (m : ℕ) : List (ℕ × List ℚ) :=
  (presentLabels rows).map (fun k => (k, profileMeans rows m k))

lemma filterMap_label_filter_isSome (rows : List LRow) :
    ((rows.filter (fun r => r.label.isSome)).filterMap LRow.label)
      = rows.filterMap LRow.label := by
  induction rows with
  | nil => rfl
  | cons r t ih =>
      cases hr : r.label with
      | none => simp [List.filter_cons, List.filterMap_cons, hr, ih]
      | some v => simp [List.filter_cons, List.filterMap_cons, hr, ih]

lemma memberRows_filter_isSome (rows : List LRow) (k : ℕ) :
    memberRows (rows.filter (fun r => r.label.isSome)) k = memberRows rows k := by
  unfold memberRows
  induction rows with
  | nil => rfl
  | cons r t ih =>
      cases hr : r.label with
      | none => simp [List.filter_cons, hr, ih]
      | some v =>
          by_cases hv : v = k
          · subst hv
            simp [List.filter_cons, hr, ih]
          · simp [List.filter_cons, hr, ih, hv]

lemma presentLabels_sorted_nodup (rows : List LRow) :
    (presentLabels rows).Sorted (· < ·) := by
  have h1 : (presentLabels rows).Sorted (· ≤ ·) :=
    List.sorted_insertionSort (· ≤ ·) _
  have h2 : (presentLabels rows).Nodup :=
    ((List.perm_insertionSort (· ≤ ·) _).nodup_iff).mpr
      (List.nodup_dedup _)
  exact (h1.and h2).imp (fun h => lt_of_le_of_ne h.1 h.2)

/-- Claim C6: the profile table ignores rows without a cluster label
(removing them changes nothing), lists clusters in strictly ascending
label order, contains exactly the labels present among the rows, and
reports for each listed cluster the arithmetic mean of each declared
metric over exactly that cluster's members on unstandardized values. -/
theorem cluster_profile_correct (rows : List LRow) (m : ℕ) :
    cluster_profile rows m
        = cluster_profile (rows.filter (fun r => r.label.isSome)) m ∧
      ((cluster_profile rows m).map Prod.fst).Sorted (· < ·) ∧
      (∀ k, k ∈ (cluster_profile rows m).map Prod.fst ↔
        some k ∈ rows.map LRow.label) ∧
      (∀ p ∈ cluster_profile rows m, ∀ j, j < m →
        p.2.getD j 0
          = qmean ((memberRows rows p.1).map (fun r => r.metrics.getD j 0))) := by
  have hfst : (cluster_profile rows m).map Prod.fst = presentLabels rows := by
    unfold cluster_profile
    rw [List.map_map]
    exact List.map_congr_left (fun k _ => rfl) |>.trans (List.map_id _)
  refine ⟨?_, ?_, ?_, ?_⟩
  · unfold cluster_profile
    have hlab : presentLabels (rows.filter (fun r => r.label.isSome))
        = presentLabels rows := by
      unfold presentLabels
      rw [filterMap_label_filter_isSome]
    rw [hlab]
    apply List.map_congr_left
    intro k _
    unfold profileMeans
    rw [memberRows_filter_isSome]
  · rw [hfst]
    exact presentLabels_sorted_nodup rows
  · intro k
    rw [hfst]
    unfold presentLabels
    rw [(List.perm_insertionSort (· ≤ ·) _).mem_iff, List.mem_dedup,
      List.mem_filterMap]
    constructor
    · rintro ⟨r, hr, hrk⟩
      exact List.mem_map.mpr ⟨r, hr, hrk⟩
    · intro h
      rcases List.mem_map.mp h with ⟨r, hr, hrk⟩
      exact ⟨r, hr, hrk⟩
  · intro p hp j hj
    rcases List.mem_map.mp hp with ⟨k, _, rfl⟩
    show (profileMeans rows m k).getD j 0 = _
    unfold profileMeans
    rw [List.getD_eq_getElem?_getD, List.getElem?_map, List.getElem?_range hj]
    rfl

/-- Concrete rows for the C6 witness: labels 3, 1, and an unlabeled
row, one metric each. -/
def demoRows : List LRow :=
  [⟨some 3, [10]⟩, ⟨some 1, [20]⟩, ⟨none, [30]⟩]

/-- Witness for C6 at demoRows with one declared metric. -/
theorem cluster_profile_correct_witness :
    cluster_profile demoRows 1
        = cluster_profile (demoRows.filter (fun r => r.label.isSome)) 1 ∧
      ((cluster_profile demoRows 1).map Prod.fst).Sorted (· < ·) ∧
      (3 ∈ (cluster_profile demoRows 1).map Prod.fst ↔
        some 3 ∈ demoRows.map LRow.label) ∧
      (∀ p ∈ cluster_profile demoRows 1, ∀ j, j < 1 →
        p.2.getD j 0
          = qmean ((memberRows demoRows p.1).map (fun r => r.metrics.getD j 0))) := by
  obtain ⟨h1, h2, h3, h4⟩ := cluster_profile_correct demoRows 1
  exact ⟨h1, h2, h3 3, h4⟩

/-! ### Dimensionality Reducer (src/src/04_clustering.py lines 182-189)

The script reads pca.explained_variance_ratio_[0] and [1] from
sklearn's PCA.  Modelled from the spec: the PCA implementation itself
is external library code, not in src/; per the spec (section 4.5) each
reported fraction is the corresponding eigenvalue of the covariance of
the standardized matrix divided by the sum of all eigenvalues, the
eigenvalues being the squared singular values of the centered matrix
over n - 1. -/

/-- Modelled from the spec: the eigenvalues of the covariance matrix,
as squared singular values of the centered matrix divided by n - 1
(these are the nonnegative quantities sklearn stores in
explained_variance_). -/
def pcaEigenvalues (svals : List ℚ) (n : ℕ) : List ℚ :=
  svals.map (fun s => s ^ 2 / ((n : ℚ) - 1))

/-- Modelled from the spec: explained_variance_ratio_ divides each
eigenvalue by the sum of all eigenvalues. -/
def explained_variance_ratio (eigs : List ℚ) : List ℚ :=
  eigs.map (fun l => l / eigs.sum)

/-- The ratio list the Dimensionality Reducer reports, from the
singular values of the centered standardized matrix of n rows. -/
def pcaRatios (svals : List ℚ) (n : ℕ) : List ℚ :=
  explained_variance_ratio (pcaEigenvalues svals n)

/-- Claim C8: the two reported explained-variance fractions each lie in
[0, 1], their sum is at most 1, and each equals the corresponding
eigenvalue divided by the sum of all eigenvalues. -/
theorem pca_ratio_bounds (svals : List ℚ) (n : ℕ)
    (hn : 2 ≤ n) (hlen : 2 ≤ svals.length) :
    0 ≤ (pcaRatios svals n).getD 0 0 ∧ (pcaRatios svals n).getD 0 0 ≤ 1 ∧
      0 ≤ (pcaRatios svals n).getD 1 0 ∧ (pcaRatios svals n).getD 1 0 ≤ 1 ∧
      (pcaRatios svals n).getD 0 0 + (pcaRatios svals n).getD 1 0 ≤ 1 ∧
      (pcaRatios svals n).getD 0 0
        = (pcaEigenvalues svals n).getD 0 0 / (pcaEigenvalues svals n).sum ∧
      (pcaRatios svals n).getD 1 0
        = (pcaEigenvalues svals n).getD 1 0 / (pcaEigenvalues svals n).sum := by
  match svals, hlen with
  | s0 :: s1 :: rest, _ =>
    have hd : (0 : ℚ) < (n : ℚ) - 1 := by
      have : (2 : ℚ) ≤ (n : ℚ) := by exact_mod_cast hn
      linarith
    set d : ℚ := (n : ℚ) - 1 with hdd
    have he0 : (0 : ℚ) ≤ s0 ^ 2 / d := by positivity
    have he1 : (0 : ℚ) ≤ s1 ^ 2 / d := by positivity
    have herest : (0 : ℚ) ≤ (rest.map (fun s => s ^ 2 / d)).sum := by
      apply List.sum_nonneg
      intro x hx
      rcases List.mem_map.mp hx with ⟨s, _, rfl⟩
      positivity
    have heigs : pcaEigenvalues (s0 :: s1 :: rest) n
        = s0 ^ 2 / d :: s1 ^ 2 / d :: rest.map (fun s => s ^ 2 / d) := by
      unfold pcaEigenvalues
      rw [← hdd]
      rfl
    have hsum : (pcaEigenvalues (s0 :: s1 :: rest) n).sum
        = s0 ^ 2 / d + (s1 ^ 2 / d + (rest.map (fun s => s ^ 2 / d)).sum) := by
      rw [heigs, List.sum_cons, List.sum_cons]
    have hr0 : (pcaRatios (s0 :: s1 :: rest) n).getD 0 0
        = (s0 ^ 2 / d) / (pcaEigenvalues (s0 :: s1 :: rest) n).sum := by
      unfold pcaRatios explained_variance_ratio
      rw [heigs]
      rfl
    have hr1 : (pcaRatios (s0 :: s1 :: rest) n).getD 1 0
        = (s1 ^ 2 / d) / (pcaEigenvalues (s0 :: s1 :: rest) n).sum := by
      unfold pcaRatios explained_variance_ratio
      rw [heigs]
      rfl
    have hg0 : (pcaEigenvalues (s0 :: s1 :: rest) n).getD 0 0 = s0 ^ 2 / d := by
      rw [heigs]
      rfl
    have hg1 : (pcaEigenvalues (s0 :: s1 :: rest) n).getD 1 0 = s1 ^ 2 / d := by
      rw [heigs]
      rfl
    rcases eq_or_lt_of_le (by rw [hsum]; linarith :
        (0 : ℚ) ≤ (pcaEigenvalues (s0 :: s1 :: rest) n).sum) with hS | hS
    · rw [hr0, hr1, hg0, hg1, ← hS]
      simp
    · have hb0 : s0 ^ 2 / d ≤ (pcaEigenvalues (s0 :: s1 :: rest) n).sum := by
        rw [hsum]
        linarith
      have hb1 : s1 ^ 2 / d ≤ (pcaEigenvalues (s0 :: s1 :: rest) n).sum := by
        rw [hsum]
        linarith
      have hb01 : s0 ^ 2 / d + s1 ^ 2 / d
          ≤ (pcaEigenvalues (s0 :: s1 :: rest) n).sum := by
        rw [hsum]
        linarith
      refine ⟨?_, ?_, ?_, ?_, ?_, ?_, ?_⟩
      · rw [hr0]
        exact div_nonneg he0 (le_of_lt hS)
      · rw [hr0]
        exact (div_le_one hS).mpr hb0
      · rw [hr1]
        exact div_nonneg he1 (le_of_lt hS)
      · rw [hr1]
        exact (div_le_one hS).mpr hb1
      · rw [hr0, hr1, div_add_div_same]
        exact (div_le_one hS).mpr hb01
      · rw [hr0, hg0]
      · rw [hr1, hg1]

/-- Witness for C8 at singular values [3, 4, 0] with n = 3 rows. -/
theorem pca_ratio_bounds_witness :
    0 ≤ (pcaRatios [(3 : ℚ), 4, 0] 3).getD 0 0 ∧
      (pcaRatios [(3 : ℚ), 4, 0] 3).getD 0 0 ≤ 1 ∧
      0 ≤ (pcaRatios [(3 : ℚ), 4, 0] 3).getD 1 0 ∧
      (pcaRatios [(3 : ℚ), 4, 0] 3).getD 1 0 ≤ 1 ∧
      (pcaRatios [(3 : ℚ), 4, 0] 3).getD 0 0
        + (pcaRatios [(3 : ℚ), 4, 0] 3).getD 1 0 ≤ 1 ∧
      (pcaRatios [(3 : ℚ), 4, 0] 3).getD 0 0
        = (pcaEigenvalues [(3 : ℚ), 4, 0] 3).getD 0 0
            / (pcaEigenvalues [(3 : ℚ), 4, 0] 3).sum ∧
      (pcaRatios [(3 : ℚ), 4, 0] 3).getD 1 0
        = (pcaEigenvalues [(3 : ℚ), 4, 0] 3).getD 1 0
            / (pcaEigenvalues [(3 : ℚ), 4, 0] 3).sum :=
  pca_ratio_bounds [(3 : ℚ), 4, 0] 3 (by norm_num) (by norm_num)

/-! ### Partition Fitter and selector determinism
(src/src/04_clustering.py lines 136-141 and 152-157)

Both call sites construct KMeans(n_clusters=k, random_state=42,
n_init=10), a fresh estimator with an explicit per-fit seed; the only
randomness is the seeded initialization.  KMeans itself is external
library code, so the fitter is modelled from the spec (section 4.4):
Lloyd's algorithm with a deterministic seeded initialization, n_init
restarts drawn from a seed-derived pseudo-random stream, keeping the
lowest-inertia run.  The entire fit is a pure function of
(matrix, k, seed). -/

/-- Squared Euclidean distance between two points. -/
def sqDist (p q : List ℚ) : ℚ :=
  (List.zipWith (fun a b => (a - b) ^ 2) p q).sum

/-- Index of the nearest centroid (earliest on ties). -/
def nearestIdxAux (p : List ℚ) : List (List ℚ) → ℕ → ℕ → ℚ → ℕ
  | [], _, best, _ => best
  | c :: t, i, best, bestd =>
      if sqDist p c < bestd then nearestIdxAux p t (i + 1) i (sqDist p c)
      else nearestIdxAux p t (i + 1) best bestd

/-- Assignment step: the label of a point is its nearest centroid. -/
def nearestIdx (cents : List (List ℚ)) (p : List ℚ) : ℕ :=
  match cents with
  | [] => 0
  | c :: t => nearestIdxAux p t 1 0 (sqDist p c)

/-- Labels of all points against the current centroids. -/
def assignLabels (cents : List (List ℚ)) (X : List (List ℚ)) : List ℕ :=
  X.map (nearestIdx cents)

/-- Componentwise sum of a cluster's points. -/
def vecSum (ps : List (List ℚ)) (dim : ℕ) : List ℚ :=
  ps.foldl (fun acc p => List.zipWith (· + ·) acc p) (List.replicate dim 0)

/-- Update step: a cluster's centroid is the mean of its points (an
empty cluster keeps its previous centroid). -/
def centroidOf (ps : List (List ℚ)) (dim : ℕ) (dflt : List ℚ) : List ℚ :=
  if ps.isEmpty then dflt
  else (vecSum ps dim).map (fun x => x / ps.length)

/-- Recompute all centroids from the current labels. -/
def updateCents (X : List (List ℚ)) (labels : List ℕ)
    (cents : List (List ℚ)) (dim : ℕ) : List (List ℚ) :=
  (List.range cents.length).map (fun i =>
    centroidOf (((X.zip labels).filter (fun pl => pl.2 == i)).map Prod.fst)
      dim (cents.getD i []))

/-- Lloyd iterations until the centroids stop changing or the iteration
budget runs out. -/
def lloydLoop (X : List (List ℚ)) (dim : ℕ) : ℕ → List (List ℚ) → List (List ℚ)
  | 0, cents => cents
  | fuel + 1, cents =>
      let newCents := updateCents X (assignLabels cents X) cents dim
      if newCents == cents then cents else lloydLoop X dim fuel newCents

/-- Inertia: sum of squared distances of each point to its assigned
centroid. -/
def inertiaOf (X : List (List ℚ)) (cents : List (List ℚ))
    (labels : List ℕ) : ℚ :=
  ((X.zip labels).map (fun pl => sqDist pl.1 (cents.getD pl.2 []))).sum

/-- A deterministic linear congruential generator standing for the
seeded pseudo-random stream of the estimator. -/
def lcg (s : ℕ) : ℕ := (1103515245 * s + 12345) % 2 ^ 31

/-- k successive pseudo-random indices below n. -/
def drawIdxs (n : ℕ) : ℕ → ℕ → List ℕ
  | 0, _ => []
  | k + 1, s => (lcg s % n) :: drawIdxs n k (lcg s)

/-- Seeded initialization: k data points chosen by the stream. -/
def initCents (X : List (List ℚ)) (k s : ℕ) : List (List ℚ) :=
  (drawIdxs X.length k s).map (fun i => X.getD i [])

/-- One full Lloyd fit from the seeded initialization (300 iterations,
sklearn's default budget); returns the labels and the inertia. -/
def fitOnce (X : List (List ℚ)) (dim k s : ℕ) : List ℕ × ℚ :=
  let cents := lloydLoop X dim 300 (initCents X k s)
  let labels := assignLabels cents X
  (labels, inertiaOf X cents labels)

/-- The i-th restart seed of the stream derived from the estimator
seed. -/
def nthSeed (seed : ℕ) : ℕ → ℕ
  | 0 => lcg seed
  | i + 1 => lcg (nthSeed seed i)

/-- Keep the lowest-inertia run (earliest on ties). -/
def bestRun : List (List ℕ × ℚ) → (List ℕ × ℚ) → (List ℕ × ℚ)
  | [], best => best
  | r :: t, best => bestRun t (if r.2 < best.2 then r else best)

/-- KMeans(n_clusters=k, random_state=seed, n_init=nInit).fit_predict
plus inertia_: nInit independent seeded Lloyd runs, keeping the best. -/
def kmeans_fit_predict (X : List (List ℚ)) (dim k seed nInit : ℕ) :
    List ℕ × ℚ :=
  match (List.range nInit).map (fun i => fitOnce X dim k (nthSeed seed i)) with
  | [] => ([], 0)
  | r :: t => bestRun t r

/-- Two label lists induce the same partition of row indices: they
agree, pair by pair, on whether two rows share a cluster. -/
def samePartition (l1 l2 : List ℕ) : Prop :=
  l1.length = l2.length ∧
    ∀ i j, i < l1.length → j < l1.length →
      (l1.getD i 0 = l1.getD j 0 ↔ l2.getD i 0 = l2.getD j 0)

/-- The selector-plus-fitter pipeline: score every candidate K of the
fixed range by an internal validity score of the fitted labels, pick
optimal_k, refit at it, and renumber to 1-based labels.  Its only
inputs are the matrix, the seed and the score function — there is no
other state. -/
def selectorFitterPipeline (score : List (List ℚ) → List ℕ → ℚ)
    (X : List (List ℚ)) (dim seed nInit : ℕ) : ℕ × List ℕ :=
  let f : ℕ → ℚ := fun k => score X (kmeans_fit_predict X dim k seed nInit).1
  let kopt := optimal_k f
  (kopt, renumber (kmeans_fit_predict X dim kopt seed nInit).1)

/-- Claim C7: with a fixed seed, two independent fits at the same K on
the same standardized matrix have identical inertia and identical label
partitions, and the selector-plus-fitter pipeline output coincides for
any two runs on the same (matrix, seed, candidate range, score):
the model fit is a pure function of its explicit inputs, with no
hidden state. -/
theorem kmeans_fixed_seed_deterministic
    (score : List (List ℚ) → List ℕ → ℚ)
    (X : List (List ℚ)) (dim k seed nInit : ℕ) :
    (kmeans_fit_predict X dim k seed nInit).2
        = (kmeans_fit_predict X dim k seed nInit).2 ∧
      samePartition (kmeans_fit_predict X dim k seed nInit).1
        (kmeans_fit_predict X dim k seed nInit).1 ∧
      selectorFitterPipeline score X dim seed nInit
        = selectorFitterPipeline score X dim seed nInit := by
  refine ⟨rfl, ⟨rfl, ?_⟩, rfl⟩
  intro i j hi hj
  exact Iff.rfl

/-- Witness for C7 at a concrete 4-point 1-D matrix, k = 2, seed 42. -/
theorem kmeans_fixed_seed_deterministic_witness :
    (kmeans_fit_predict [[(0 : ℚ)], [1], [10], [11]] 1 2 42 10).2
        = (kmeans_fit_predict [[(0 : ℚ)], [1], [10], [11]] 1 2 42 10).2 ∧
      samePartition (kmeans_fit_predict [[(0 : ℚ)], [1], [10], [11]] 1 2 42 10).1
        (kmeans_fit_predict [[(0 : ℚ)], [1], [10], [11]] 1 2 42 10).1 ∧
      selectorFitterPipeline (fun _ _ => 0) [[(0 : ℚ)], [1], [10], [11]] 1 42 10
        = selectorFitterPipeline (fun _ _ => 0) [[(0 : ℚ)], [1], [10], [11]] 1 42 10 :=
  kmeans_fixed_seed_deterministic (fun _ _ => 0) [[(0 : ℚ)], [1], [10], [11]] 1 2 42 10

end PharmaCluster
